import Mathlib

/-!
# cretz/fut : futures over goroutines, embedded in Lean

The Go package `fut` (files `fut.go`, `ops.go`) is embedded shallowly.

* A Go value of interface type is `Option Val` (`none` is the nil interface);
  `error` is the same thing restricted to error values.
* A Go function with side effects is a function from the world `σ` to a `Res`:
  it returns, panics in the calling goroutine, brings the process down (an
  unrecovered panic in some goroutine), or never returns.
* A pointer is modelled by its dereference on the world, `none` being the nil
  pointer; a channel that is only ever closed is modelled by its closed flag and
  by what a blocked receiver observes.
* The variables captured by the closure that `New` returns (`once`, `doneCh`,
  `out`, `err`) and the two goroutines it spawns are the record `NewState`; the
  goroutines advance by `stepNew`, one scheduler event at a time.
-/

namespace GoFut

/-! ## Values, errors, contexts -/

/-- Non-nil Go values that occur as panic payloads and as errors. -/
inductive Val where
  /-- a string value -/
  | str (s : String)
  /-- runtime error: invalid memory address or nil pointer dereference -/
  | nilDeref
  /-- an error made by `fmt.Errorf` or `errors.New` -/
  | errorString (s : String)
  /-- the error `context.Canceled` -/
  | canceled
  /-- the error `context.DeadlineExceeded` -/
  | deadlineExceeded
  /-- the error `&ErrPanic{Value: v}` of `fut.go` -/
  | errPanic (v : Val)
  deriving DecidableEq, Repr

/-- A non-nil value of type `error`; a variable of type `error` is an `Option Error`. -/
abbrev Error := Val

/-- The type `PanicHandler func(interface{}) error` of `fut.go`. -/
abbrev PanicHandler := Option Val → Option Error

/-- A `context.Context` as the package uses it: `Err()` (non-nil once cancelled, and
then `Done()` is closed), the value under `PanicHandlerKey` asserted to a non-nil
`PanicHandler`, and the other values it carries. -/
structure Ctx where
  err : Option Error
  panicHandler : Option PanicHandler
  value : String → Option String

/-- The context `context.TODO()` / `context.Background()`: never cancelled, no values. -/
def Ctx.background : Ctx :=
  { err := none, panicHandler := none, value := fun _ => none }

/-- The environment cancels a context: `Err()` becomes `e` unless it was set before. -/
def Ctx.cancelWith (ctx : Ctx) (e : Error) : Ctx :=
  match ctx.err with
  | none => { ctx with err := some e }
  | some _ => ctx

/-! ## Effects -/

/-- How a call of a Go function ends. -/
inductive Res (σ α : Type) where
  /-- normal return with the new world -/
  | ok (a : α) (s : σ)
  /-- panic in the calling goroutine, with its payload (`none` for `panic(nil)`) -/
  | panic (v : Option Val) (s : σ)
  /-- a panic left some goroutine unrecovered: the process is gone -/
  | fatal (v : Option Val)
  /-- the call never returns -/
  | block
  deriving DecidableEq, Repr

/-- A Go function body over the world `σ`. -/
abbrev Comp (σ α : Type) := σ → Res σ α

/-- Sequencing of two statements. -/
def Comp.bind {σ α β : Type} (m : Comp σ α) (k : α → Comp σ β) : Comp σ β := fun s =>
  match m s with
  | .ok a s1 => k a s1
  | .panic v s1 => .panic v s1
  | .fatal v => .fatal v
  | .block => .block

/-- The statement `defer d()` followed by `body`: `d` runs when `body` returns and
when it panics; the result of `d` is dropped, a panic of `d` replaces the pending one. -/
def Comp.withDefer {σ α : Type} (body : Comp σ α) (d : Option α → Comp σ Unit) : Comp σ α := fun s =>
  match body s with
  | .ok a s1 =>
    match d (some a) s1 with
    | .ok _ s2 => .ok a s2
    | .panic v s2 => .panic v s2
    | .fatal v => .fatal v
    | .block => .block
  | .panic v s1 =>
    match d none s1 with
    | .ok _ s2 => .panic v s2
    | .panic v2 s2 => .panic v2 s2
    | .fatal v2 => .fatal v2
    | .block => .block
  | .fatal v => .fatal v
  | .block => .block

/-! ## `fut.go` -/

/-- A receive-only channel `<-chan struct{}` that is never sent on: `closed` is what a
`select` with `default` sees, `recv` is a blocking receive (the world it returns is the
world at the moment the channel is closed). -/
structure Chan (σ : Type) where
  closed : σ → Bool
  recv : Comp σ Unit

/-- The three results of invoking a `Fut`: the completion channel, the pointer to the
result and the pointer to the error; `none` is the nil pointer. -/
structure Handle (σ Out : Type) where
  done : Chan σ
  outPtr : Option (σ → Out)
  errPtr : Option (σ → Option Error)

/-- The type `Fut[Out] func(context.Context) (<-chan struct{}, *Out, *error)`. -/
abbrev Fut (σ Out : Type) := Ctx → Comp σ (Handle σ Out)

/-- The function `InvokeCall`, for a callable of the one supported shape. -/
def InvokeCall {σ : Type} (ctx : Ctx) (c : Ctx → Comp σ (Option Error)) : Comp σ (Option Error) :=
  c ctx

/-- The function `InvokeCallIn`, for a callable of the one supported shape. -/
def InvokeCallIn {σ In : Type} (ctx : Ctx) (c : Ctx → In → Comp σ (Option Error)) (x : In) :
    Comp σ (Option Error) :=
  c ctx x

/-- The function `InvokeCallOut`, for a callable of the one supported shape. -/
def InvokeCallOut {σ Out : Type} (ctx : Ctx) (c : Ctx → Comp σ (Out × Option Error)) :
    Comp σ (Out × Option Error) :=
  c ctx

/-- The function `InvokeCallInOut`, for a callable of the one supported shape. -/
def InvokeCallInOut {σ In Out : Type} (ctx : Ctx) (c : Ctx → In → Comp σ (Out × Option Error))
    (x : In) : Comp σ (Out × Option Error) :=
  c ctx x

/-! ## `ops.go` : `New` -/

/-- The state of `sync.Once` in `New`, with the context of the call that won it. -/
inductive Once where
  | idle
  | running (ctx : Ctx)
  | finished

/-- The goroutine `go func() { defer close(localDone); ... }()` of `New`. -/
inductive Worker (Out : Type) where
  /-- not spawned -/
  | absent
  /-- spawned with the winner's context, not yet run -/
  | spawned (ctx : Ctx)
  /-- inside `InvokeCallOut`, which never returns -/
  | stuck
  /-- returned: `localDone` is closed, `localOut` and `localErr` are set -/
  | exited (localOut : Out) (localErr : Option Error)

/-- The variables captured by the closure `New` returns and the goroutines it spawned. -/
structure NewState (Out : Type) where
  /-- contexts of the goroutines `go once.Do(...)` that have not called `Do` yet -/
  pending : List Ctx
  once : Once
  worker : Worker Out
  /-- whether `doneCh` is closed -/
  doneClosed : Bool
  out : Out
  err : Option Error
  /-- how many times the worker entered `InvokeCallOut(ctx, c)` -/
  runs : Nat

/-- The state right after `New(c)` returned: nothing started, zero values. -/
def NewState.init {Out : Type} [Inhabited Out] : NewState Out :=
  { pending := [], once := .idle, worker := .absent, doneClosed := false,
    out := default, err := none, runs := 0 }

/-- What the scheduler and the environment can do to a future built by `New`. -/
inductive Event where
  /-- a call `f(ctx)`: spawns `go once.Do(...)` and returns -/
  | invoke (ctx : Ctx)
  /-- the `i`-th waiting goroutine calls `once.Do` -/
  | enter (i : Nat)
  /-- the environment cancels the context of the `i`-th waiting goroutine -/
  | cancelPending (i : Nat) (e : Error)
  /-- the environment cancels the context that won the `Once` -/
  | cancel (e : Error)
  /-- the worker goroutine runs `InvokeCallOut(ctx, c)` and its deferred functions -/
  | work
  /-- the `select` takes `case <-ctx.Done()` -/
  | selectCtx
  /-- the `select` takes `case <-localDone` -/
  | selectLocal

/-- The deferred `recover()` block of the worker for a panic with payload `v`:
`some localErr` when the goroutine ends normally, `none` when it panics again. The
payload `none` is what `recover()` returns after `panic(nil)` in a module whose `go`
directive is below 1.21; from 1.21 on the runtime puts a non-nil
`*runtime.PanicNilError` in its place, which is a case of `some p`. -/
def recovered (ctx : Ctx) (v : Option Val) : Option (Option Error) :=
  match v with
  | none => some none
  | some p =>
    match ctx.panicHandler with
    | some panicHandler =>
      match panicHandler (some p) with
      | some localErr => some (some localErr)
      | none => some (some (Val.errPanic p))
    | none => none

/-- One event on the future `New(c)`; an event that is not enabled changes nothing. -/
def stepNew {σ Out : Type} [Inhabited Out] (c : Ctx → Comp σ (Out × Option Error)) (ev : Event) :
    Comp (σ × NewState Out) Unit := fun w =>
  let s := w.1
  let st := w.2
  match ev with
  -- ops.go:16 `go once.Do(...)` and ops.go:57 `return doneCh, &out, &err`
  | .invoke ctx => .ok () (s, { st with pending := st.pending ++ [ctx] })
  | .enter i =>
    match st.pending[i]? with
    | none => .ok () w
    | some ctx =>
      let st1 := { st with pending := st.pending.eraseIdx i }
      match st.once with
      | .idle =>
        -- ops.go:17-22: `defer close(doneCh)`, `if ctxErr := ctx.Err(); ctxErr != nil`
        match ctx.err with
        | some ctxErr => .ok () (s, { st1 with once := .finished, err := some ctxErr, doneClosed := true })
        -- ops.go:24-27: the worker goroutine is spawned, the `select` is next
        | none => .ok () (s, { st1 with once := .running ctx, worker := .spawned ctx })
      -- `once.Do` of a later caller runs nothing
      | _ => .ok () (s, st1)
  | .cancelPending i e =>
    match st.pending[i]? with
    | none => .ok () w
    | some ctx => .ok () (s, { st with pending := st.pending.set i (ctx.cancelWith e) })
  | .cancel e =>
    match st.once with
    | .running ctx =>
      let st1 := { st with once := .running (ctx.cancelWith e) }
      match st.worker with
      | .spawned wctx => .ok () (s, { st1 with worker := .spawned (wctx.cancelWith e) })
      | _ => .ok () (s, st1)
    | _ => .ok () w
  | .work =>
    match st.worker with
    | .spawned ctx =>
      -- ops.go:28-43: `localOut, localErr = InvokeCallOut[Out](ctx, c)` under the two defers
      match InvokeCallOut ctx c s with
      | .ok r s1 => .ok () (s1, { st with worker := .exited r.1 r.2, runs := st.runs + 1 })
      | .panic v s1 =>
        match recovered ctx v with
        | some localErr => .ok () (s1, { st with worker := .exited default localErr, runs := st.runs + 1 })
        | none => .fatal v
      | .fatal v => .fatal v
      | .block => .ok () (s, { st with worker := .stuck, runs := st.runs + 1 })
    | _ => .ok () w
  -- ops.go:47-48: `case <-ctx.Done(): err = ctx.Err()`
  | .selectCtx =>
    match st.once with
    | .running ctx =>
      match ctx.err with
      | some ctxErr => .ok () (s, { st with once := .finished, err := some ctxErr, doneClosed := true })
      | none => .ok () w
    | _ => .ok () w
  -- ops.go:49-54: `case <-localDone:` stores `localErr` if not nil, else `localOut`
  | .selectLocal =>
    match st.once, st.worker with
    | .running _, .exited localOut localErr =>
      match localErr with
      | some e => .ok () (s, { st with once := .finished, err := some e, doneClosed := true })
      | none => .ok () (s, { st with once := .finished, out := localOut, doneClosed := true })
    | _, _ => .ok () w

/-- A schedule: the events in the order they happen. -/
def runNew {σ Out : Type} [Inhabited Out] (c : Ctx → Comp σ (Out × Option Error)) :
    List Event → Comp (σ × NewState Out) Unit
  | [] => fun w => .ok () w
  | ev :: evs => Comp.bind (stepNew c ev) (fun _ => runNew c evs)

/-- A receive on `doneCh` with nothing else going on: the goroutines of the future run
in the order gatekeeper, worker, `select`; the receive returns once `doneCh` is closed. -/
def awaitDone {σ Out : Type} [Inhabited Out] (c : Ctx → Comp σ (Out × Option Error)) :
    Comp (σ × NewState Out) Unit := fun w =>
  if w.2.doneClosed then .ok () w
  else
    match runNew c [.enter 0, .work, .selectLocal, .selectCtx] w with
    | .ok _ w1 => if w1.2.doneClosed then .ok () w1 else .block
    | .panic v w1 => .panic v w1
    | .fatal v => .fatal v
    | .block => .block

/-- The handle `doneCh, &out, &err` that every call of the closure of `New` returns. -/
def newHandle {σ Out : Type} [Inhabited Out] (c : Ctx → Comp σ (Out × Option Error)) :
    Handle (σ × NewState Out) Out :=
  { done := { closed := fun w => w.2.doneClosed, recv := awaitDone c }
    outPtr := some (fun w => w.2.out)
    errPtr := some (fun w => w.2.err) }

/-- The function `New`: the closure spawns `go once.Do(...)` and returns the handle. -/
def New {σ Out : Type} [Inhabited Out] (c : Ctx → Comp σ (Out × Option Error)) :
    Fut (σ × NewState Out) Out := fun ctx =>
  Comp.bind (stepNew c (.invoke ctx)) (fun _ w => .ok (newHandle c) w)

/-! ## `ops.go` : waiting and the constant futures -/

/-- The function `Wait`. With the context not cancelled, `case <-ctx.Done()` of the
`select` is never ready and the `select` is a receive on `done`. -/
def Wait {σ Out : Type} [Inhabited Out] (ctx : Ctx) (f : Fut σ Out) : Comp σ (Out × Option Error) := fun s =>
  match ctx.err with
  | some ctxErr => .ok (default, some ctxErr) s
  | none =>
    match f ctx s with
    | .ok h s1 =>
      match h.done.recv s1 with
      | .ok _ s2 =>
        match h.outPtr, h.errPtr with
        | some outPtr, some errPtr => .ok (outPtr s2, errPtr s2) s2
        | _, _ => .panic (some Val.nilDeref) s2
      | .panic v s2 => .panic v s2
      | .fatal v => .fatal v
      | .block => .block
    | .panic v s1 => .panic v s1
    | .fatal v => .fatal v
    | .block => .block

/-- The function `MustWait`. -/
def MustWait {σ Out : Type} [Inhabited Out] (ctx : Ctx) (f : Fut σ Out) : Comp σ Out :=
  Comp.bind (Wait ctx f) fun r s =>
    match r.2 with
    | some err => .panic (some err) s
    | none => .ok r.1 s

/-- The channel `alwaysDone`, closed by `init`. -/
def alwaysDone {σ : Type} : Chan σ :=
  { closed := fun _ => true, recv := fun s => .ok () s }

/-- The function `Fixed`: `return alwaysDone, &v, nil`. -/
def Fixed {σ Out : Type} (v : Out) : Fut σ Out := fun _ s =>
  .ok { done := alwaysDone, outPtr := some (fun _ => v), errPtr := none } s

/-- The function `Err`: `return alwaysDone, nil, &err`. -/
def Err {σ Out : Type} (err : Option Error) : Fut σ Out := fun _ s =>
  .ok { done := alwaysDone, outPtr := none, errPtr := some (fun _ => err) } s

/-- The function `Start`: `f := New(c); go f(ctx); return f`. It returns the future
and, the goroutine `go f(ctx)` having made its call, the world of the future. -/
def Start {σ Out : Type} [Inhabited Out] (ctx : Ctx) (c : Ctx → Comp σ (Out × Option Error))
    (s : σ) : Fut (σ × NewState Out) Out × Res (σ × NewState Out) Unit :=
  (New c, Comp.bind (New c ctx) (fun _ w => .ok () w) (s, NewState.init))

/-- The function `Poll`: a `select` on `done` with a `default` case, reached right
after the call `f(ctx)` returned; the pointer it returns is the pointer it got. -/
def Poll {σ Out : Type} (ctx : Ctx) (f : Fut σ Out) : Comp σ (Option (σ → Out) × Option Error) :=
  Comp.bind (f ctx) fun h s =>
    if h.done.closed s then
      match h.errPtr with
      | some errPtr => .ok (none, errPtr s) s
      | none => .ok (h.outPtr, none) s
    else .ok (none, none) s

/-! ## `ops.go` : the combinators -/

/-- The function `Then`. -/
def Then {σ In Out : Type} [Inhabited In] [Inhabited Out] (f : Fut σ In)
    (c : Ctx → In → Comp σ (Out × Option Error)) : Fut (σ × NewState Out) Out :=
  New fun ctx =>
    Comp.bind (Wait ctx f) fun r =>
      match r.2 with
      | some err => fun s => .ok (default, some err) s
      | none => InvokeCallInOut ctx c r.1

/-- The function `ThenErr`. -/
def ThenErr {σ In : Type} [Inhabited In] (f : Fut σ In)
    (c : Ctx → Option Error → Comp σ (In × Option Error)) : Fut (σ × NewState In) In :=
  New fun ctx =>
    Comp.bind (Wait ctx f) fun r =>
      match r.2 with
      | some err => InvokeCallInOut ctx c (some err)
      | none => fun s => .ok r s

/-- The function `Defer`: `defer c(ctx)` runs also when `Wait` panics; with the
panic the named results are still the zero values. -/
def Defer {σ In : Type} [Inhabited In] (f : Fut σ In) (c : Ctx → Comp σ (Option Error)) :
    Fut (σ × NewState In) In :=
  New fun ctx =>
    Comp.withDefer (Wait ctx f) fun _ => Comp.bind (c ctx) fun _ s => .ok () s

/-- The function `DeferOK`: the deferred closure reads `success` and `in`; when `Wait`
panics, `success` is still false. -/
def DeferOK {σ In : Type} [Inhabited In] (f : Fut σ In) (c : Ctx → In → Comp σ (Option Error)) :
    Fut (σ × NewState In) In :=
  New fun ctx =>
    Comp.withDefer (Wait ctx f) fun r =>
      match r with
      | some (x, none) => Comp.bind (InvokeCallIn ctx c x) fun _ s => .ok () s
      | _ => fun s => .ok () s

/-- The function `DeferErr`: the deferred closure reads the named result `err`; when
`Wait` panics, `err` is still nil. -/
def DeferErr {σ In : Type} [Inhabited In] (f : Fut σ In)
    (c : Ctx → Option Error → Comp σ (Option Error)) : Fut (σ × NewState In) In :=
  New fun ctx =>
    Comp.withDefer (Wait ctx f) fun r =>
      match r with
      | some (_, some err) => Comp.bind (InvokeCallIn ctx c (some err)) fun _ s => .ok () s
      | _ => fun s => .ok () s

/-- The function `WithContext`. -/
def WithContext {σ In : Type} [Inhabited In] (f : Fut σ In) (ctx : Ctx) : Fut (σ × NewState In) In :=
  New fun _ => Wait ctx f

/-- The goroutine `go func(i int, fOut Fut[Out]) {...}(i, fOut)` of `All`: the slice
`outs` after it ran and the error it sends on `errCh`. -/
def allWorker {σ Out : Type} [Inhabited Out] (ctx : Ctx) (i : Nat) (fOut : Fut σ Out)
    (outs : List Out) : Comp σ (List Out × Option Error) :=
  Comp.bind (Wait ctx fOut) fun r s =>
    match r.2 with
    | none => .ok (outs.set i r.1, none) s
    | some err => .ok (outs, some err) s

/-- The loop `for range f { if err := <-errCh; err != nil { return nil, err } }` of `All`
followed by `return outs, nil`. The goroutines send in the order `order` (their
completion order); `k` receives are left. A goroutine that panics takes the process
down, one that never returns never sends, and a receive with no sender left blocks. -/
def allLoop {σ Out : Type} [Inhabited Out] (ctx : Ctx) (f : List (Fut σ Out)) :
    List Nat → Nat → List Out → Comp σ (List Out × Option Error)
  | _, 0, outs => fun s => .ok (outs, none) s
  | [], _ + 1, _ => fun _ => .block
  | i :: order, k + 1, outs => fun s =>
    match f[i]? with
    | none => allLoop ctx f order (k + 1) outs s
    | some fOut =>
      match allWorker ctx i fOut outs s with
      | .ok r s1 =>
        match r.2 with
        | some err => .ok ([], some err) s1
        | none => allLoop ctx f order k r.1 s1
      | .panic v _ => .fatal v
      | .fatal v => .fatal v
      | .block => allLoop ctx f order (k + 1) outs s

/-- The function `All`; `order` is the order in which the goroutines it spawns complete. -/
def All {σ Out : Type} [Inhabited Out] (order : List Nat) (f : List (Fut σ Out)) :
    Fut (σ × NewState (List Out)) (List Out) :=
  New fun ctx => allLoop ctx f order f.length (List.replicate f.length default)

/-! ## Observations -/

/-- The value a call returned, if it returned. -/
def Res.value? {σ α : Type} : Res σ α → Option α
  | .ok a _ => some a
  | _ => none

/-- The outcome a future built by `New` has published after a schedule: the contents
of the two slots once `doneCh` is closed. -/
def published {σ Out : Type} : Res (σ × NewState Out) Unit → Option (Out × Option Error)
  | .ok _ w => if w.2.doneClosed then some (w.2.out, w.2.err) else none
  | _ => none

/-- What `New` stores for the pair a computation returned: the error alone when there
is one, the value otherwise. -/
def settle {Out : Type} [Inhabited Out] (r : Out × Option Error) : Out × Option Error :=
  match r.2 with
  | some e => (default, some e)
  | none => (r.1, none)

/-- The state of a fresh future built by `New` after `Wait` returned, the computation
having returned `r`. -/
def NewState.settled {Out : Type} [Inhabited Out] (r : Out × Option Error) : NewState Out :=
  { pending := [], once := .finished, worker := .exited r.1 r.2, doneClosed := true,
    out := (settle r).1, err := (settle r).2, runs := 1 }

/-- How often a worker in a given state has entered the computation. -/
def Worker.runs {Out : Type} : Worker Out → Nat
  | .absent => 0
  | .spawned _ => 0
  | .stuck => 1
  | .exited _ _ => 1

/-- Invariant of `stepNew`: `runs` counts the one call the worker makes, the worker
exists only once the `Once` is taken, and `doneCh` is closed exactly when the
function passed to `once.Do` has returned. -/
def NewInv {Out : Type} (st : NewState Out) : Prop :=
  st.runs = Worker.runs st.worker ∧
  (match st.once with
   | .idle => (match st.worker with | .absent => True | _ => False) ∧ st.doneClosed = false
   | .running _ => st.doneClosed = false
   | .finished => st.doneClosed = true)

/-- An event of a schedule in which nothing is cancelled and every invoking context
satisfies `P`. -/
def Event.quiet (P : Ctx → Prop) : Event → Prop
  | .invoke ctx => P ctx
  | .cancelPending _ _ => False
  | .cancel _ => False
  | _ => True

/-- What the deferred block of the worker leaves in `localErr` for a non-nil payload
`p` when the handler `h` is registered: `h(p)`, or `&ErrPanic{Value: p}` when that is nil. -/
def panicErr (h : PanicHandler) (p : Val) : Error :=
  match h (some p) with
  | some e => e
  | none => Val.errPanic p

/-- The governing context of a schedule: the context of the first waiting goroutine
that calls `once.Do`, which is the one whose function `sync.Once` runs. `pending`
are the contexts of the goroutines waiting at the start. -/
def governing : List Event → List Ctx → Option Ctx
  | [], _ => none
  | .invoke ctx :: evs, pending => governing evs (pending ++ [ctx])
  | .enter i :: evs, pending =>
    match pending[i]? with
    | some ctx => some ctx
    | none => governing evs pending
  | .cancelPending i e :: evs, pending =>
    match pending[i]? with
    | some ctx => governing evs (pending.set i (ctx.cancelWith e))
    | none => governing evs pending
  | _ :: evs, pending => governing evs pending

/-- Invariant of `stepNew` once the `Once` is taken by a context that satisfies `P`,
for a computation that panics with a payload the handler turns into `E`, along a
schedule without cancellation. -/
def GovInv {Out : Type} [Inhabited Out] (P : Ctx → Prop) (E : Error) (st : NewState Out) : Prop :=
  (match st.once with
   | .idle => False
   | .running ctx => P ctx ∧ st.doneClosed = false
   | .finished => True) ∧
  (match st.worker with
   | .spawned ctx => P ctx
   | .exited localOut localErr => localOut = default ∧ localErr = some E
   | _ => True) ∧
  st.out = default ∧
  (st.doneClosed = true → st.err = some E)

/-- Invariant of `stepNew` once the `Once` is taken by the context `g`, for any
computation, along a schedule without cancellation: while `doneCh` is open the
`select` of `g` is waiting and the result slot holds the zero value. -/
def WaitingInv {Out : Type} [Inhabited Out] (g : Ctx) (st : NewState Out) : Prop :=
  (match st.once with
   | .idle => False
   | .running ctx => ctx = g ∧ st.doneClosed = false
   | .finished => st.doneClosed = true) ∧
  (st.doneClosed = false → st.out = default)

/-- Invariant of `stepNew` for a computation that always panics with a non-nil payload,
along any schedule: the result slot keeps its zero value and no nil error is published. -/
def FailInv {Out : Type} [Inhabited Out] (st : NewState Out) : Prop :=
  (match st.worker with
   | .exited _ localErr => localErr ≠ none
   | _ => True) ∧
  st.out = default ∧
  (st.doneClosed = true → st.err ≠ none)

/-- Invariant of `stepNew` for a computation that returns `r` on the world `s0`, along a
schedule without cancellation whose contexts all satisfy `P` and are not cancelled. -/
def QuietInv {σ Out : Type} [Inhabited Out] (P : Ctx → Prop) (s0 s1 : σ) (r : Out × Option Error)
    (w : σ × NewState Out) : Prop :=
  (∀ ctx ∈ w.2.pending, ctx.err = none ∧ P ctx) ∧
  (match w.2.once with
   | .idle => w.2.doneClosed = false ∧ (match w.2.worker with | .absent => True | _ => False)
   | .running ctx => ctx.err = none ∧ P ctx ∧ w.2.doneClosed = false
   | .finished => True) ∧
  (match w.2.worker with
   | .absent => w.1 = s0
   | .spawned ctx => (ctx.err = none ∧ P ctx) ∧ w.1 = s0
   | .stuck => True
   | .exited localOut localErr => localOut = r.1 ∧ localErr = r.2 ∧ w.1 = s1) ∧
  (w.2.doneClosed = false → w.2.out = default ∧ w.2.err = none) ∧
  (w.2.doneClosed = true → (w.2.out, w.2.err) = settle r)

/-- What `All` returns when the input `i` ends with the pair `r i` and the goroutines
complete in the order `order`: the error of the first failure in that order, or all
the values in input order. -/
def allResult {Out : Type} (r : Nat → Out × Option Error) (order : List Nat) (n : Nat) :
    List Out × Option Error :=
  match order.find? (fun i => (r i).2.isSome) with
  | some i => ([], (r i).2)
  | none => ((List.range n).map (fun i => (r i).1), none)

/-! ## Example inputs -/

/-- A settled future that keeps the contract of `Fut`: both pointers are not nil. -/
def ready {σ Out : Type} (v : Out) (err : Option Error) : Fut σ Out := fun _ s =>
  .ok { done := alwaysDone, outPtr := some (fun _ => v), errPtr := some (fun _ => err) } s

/-- A computation that panics with a nil payload, `panic(nil)`. -/
def boomingNil : Ctx → Comp Unit (String × Option Error) :=
  fun _ s => .panic none s

/-- The computation of `ExampleWait`: returns `"Hello, World!", nil`. -/
def helloWorld : Ctx → Comp Unit (String × Option Error) :=
  fun _ s => .ok ("Hello, World!", none) s

/-- A computation that counts its runs in the world and returns the new count. -/
def counting : Ctx → Comp Nat (Nat × Option Error) :=
  fun _ n => .ok (n + 1, none) (n + 1)

/-- A computation that panics with the string `"boom"`. -/
def booming : Ctx → Comp Unit (String × Option Error) :=
  fun _ s => .panic (some (Val.str "boom")) s

/-- A context that is already cancelled with `context.Canceled`. -/
def cancelledCtx : Ctx :=
  { err := some Val.canceled, panicHandler := none, value := fun _ => none }

/-- A panic handler that turns every payload into the error `handled`. -/
def handling : PanicHandler :=
  fun _ => some (Val.errorString "handled")

/-- A context that is not cancelled and carries the handler `handling`. -/
def handlerCtx : Ctx :=
  { err := none, panicHandler := some handling, value := fun _ => none }

/-- A side effect that counts its calls in the world. -/
def tick : Ctx → Comp Nat (Option Error) :=
  fun _ n => .ok none (n + 1)

/-- The continuation of `ExampleThen`: appends `", World!"`. -/
def appendWorld {σ : Type} : Ctx → String → Comp σ (String × Option Error) :=
  fun _ x s => .ok (x ++ ", World!", none) s

/-! # Theorems -/

/-! ## The state machine of `New` -/

theorem NewInv_init {Out : Type} [Inhabited Out] : NewInv (NewState.init : NewState Out) :=
  ⟨rfl, ⟨trivial, rfl⟩⟩

theorem NewInv_runs_le {Out : Type} (st : NewState Out) (h : NewInv st) : st.runs ≤ 1 := by
  obtain ⟨hr, -⟩ := h
  rw [hr]
  cases st.worker <;> simp [Worker.runs]

theorem stepNew_inv {σ Out : Type} [Inhabited Out] (c : Ctx → Comp σ (Out × Option Error))
    (ev : Event) (w w' : σ × NewState Out)
    (h : stepNew c ev w = .ok () w') (hi : NewInv w.2) : NewInv w'.2 := by
  obtain ⟨s, pending, once, worker, dc, out, err, runs⟩ := w
  obtain ⟨hr, ho⟩ := hi
  cases once <;> cases worker <;> cases ev <;> simp only [stepNew] at h
  all_goals
    repeat' split at h
  all_goals
    try (cases h)
  all_goals
    simp_all [NewInv, Worker.runs]

theorem stepNew_done {σ Out : Type} [Inhabited Out] (c : Ctx → Comp σ (Out × Option Error))
    (ev : Event) (w w' : σ × NewState Out)
    (h : stepNew c ev w = .ok () w') (hi : NewInv w.2) (hd : w.2.doneClosed = true) :
    w'.2.doneClosed = true ∧ w'.2.out = w.2.out ∧ w'.2.err = w.2.err := by
  obtain ⟨s, pending, once, worker, dc, out, err, runs⟩ := w
  obtain ⟨hr, ho⟩ := hi
  cases once <;> cases worker <;> cases ev <;> simp only [stepNew] at h
  all_goals
    repeat' split at h
  all_goals
    try (cases h)
  all_goals
    simp_all [NewInv, Worker.runs]

theorem runNew_cons_ok {σ Out : Type} [Inhabited Out] (c : Ctx → Comp σ (Out × Option Error))
    (ev : Event) (evs : List Event) (w w' : σ × NewState Out)
    (h : runNew c (ev :: evs) w = .ok () w') :
    ∃ w1, stepNew c ev w = .ok () w1 ∧ runNew c evs w1 = .ok () w' := by
  simp only [runNew, Comp.bind] at h
  cases hs : stepNew c ev w with
  | ok a w1 => rw [hs] at h; exact ⟨w1, rfl, h⟩
  | panic v w1 => rw [hs] at h; cases h
  | fatal v => rw [hs] at h; cases h
  | block => rw [hs] at h; cases h

theorem runNew_inv {σ Out : Type} [Inhabited Out] (c : Ctx → Comp σ (Out × Option Error))
    (evs : List Event) :
    ∀ (w w' : σ × NewState Out), runNew c evs w = .ok () w' → NewInv w.2 → NewInv w'.2 := by
  induction evs with
  | nil => intro w w' h hi; simp only [runNew] at h; cases h; exact hi
  | cons ev evs ih =>
    intro w w' h hi
    obtain ⟨w1, hs, hr⟩ := runNew_cons_ok c ev evs w w' h
    exact ih w1 w' hr (stepNew_inv c ev w w1 hs hi)

theorem runNew_done {σ Out : Type} [Inhabited Out] (c : Ctx → Comp σ (Out × Option Error))
    (evs : List Event) :
    ∀ (w w' : σ × NewState Out), runNew c evs w = .ok () w' → NewInv w.2 →
      w.2.doneClosed = true →
      w'.2.doneClosed = true ∧ w'.2.out = w.2.out ∧ w'.2.err = w.2.err := by
  induction evs with
  | nil => intro w w' h _ hd; simp only [runNew] at h; cases h; exact ⟨hd, rfl, rfl⟩
  | cons ev evs ih =>
    intro w w' h hi hd
    obtain ⟨w1, hs, hr⟩ := runNew_cons_ok c ev evs w w' h
    have h1 := stepNew_done c ev w w1 hs hi hd
    have h2 := ih w1 w' hr (stepNew_inv c ev w w1 hs hi) h1.1
    exact ⟨h2.1, h2.2.1.trans h1.2.1, h2.2.2.trans h1.2.2⟩

/-- C1. A future built by `New`, after any schedule of invocations, goroutine steps and
cancellations: the computation was entered at most once; every invocation, with any
context and at any moment, returns the one handle `newHandle c` and itself runs
nothing; once `doneCh` is closed, the slots the handle points to never change again,
whatever happens next; and a `Wait` on the settled future returns the published pair
without touching the world or running the computation again. -/
theorem New_memoized {σ Out : Type} [Inhabited Out] (c : Ctx → Comp σ (Out × Option Error))
    (s : σ) (evs : List Event) (w : σ × NewState Out)
    (h : runNew c evs (s, NewState.init) = .ok () w) :
    w.2.runs ≤ 1 ∧
    (∀ (ctx : Ctx) (w0 : σ × NewState Out), ∃ w1, New c ctx w0 = .ok (newHandle c) w1 ∧
      w1.1 = w0.1 ∧ w1.2.runs = w0.2.runs ∧ w1.2.out = w0.2.out ∧ w1.2.err = w0.2.err) ∧
    (w.2.doneClosed = true → ∀ (evs2 : List Event) (w2 : σ × NewState Out),
      runNew c evs2 w = .ok () w2 →
      w2.2.doneClosed = true ∧ w2.2.out = w.2.out ∧ w2.2.err = w.2.err) ∧
    (w.2.doneClosed = true → ∀ ctx : Ctx, ctx.err = none →
      ∃ w1, Wait ctx (New c) w = .ok (w.2.out, w.2.err) w1 ∧ w1.1 = w.1 ∧
        w1.2.runs = w.2.runs) := by
  have hi : NewInv w.2 := runNew_inv c evs _ w h NewInv_init
  refine ⟨NewInv_runs_le _ hi, ?_, ?_, ?_⟩
  · intro ctx w0
    exact ⟨_, rfl, rfl, rfl, rfl, rfl⟩
  · intro hd evs2 w2 h2
    exact runNew_done c evs2 w w2 h2 hi hd
  · intro hd ctx hctx
    refine ⟨(w.1, { w.2 with pending := w.2.pending ++ [ctx] }), ?_, rfl, rfl⟩
    simp [Wait, New, Comp.bind, stepNew, newHandle, awaitDone, hctx, hd]

/-- Witness of `New_memoized`: three invocations, interleaved with the goroutines, of a
computation that counts its runs; it has run once. -/
theorem New_memoized_witness :
    runNew counting [.invoke Ctx.background, .invoke handlerCtx, .enter 1, .work, .enter 0,
        .work, .selectLocal, .invoke Ctx.background, .enter 0, .work] (0, NewState.init) =
      .ok () (1, NewState.settled (1, none)) ∧
    (NewState.settled (1, none) : NewState Nat).runs ≤ 1 :=
  have h : runNew counting [.invoke Ctx.background, .invoke handlerCtx, .enter 1, .work, .enter 0,
        .work, .selectLocal, .invoke Ctx.background, .enter 0, .work] (0, NewState.init) =
      .ok () (1, NewState.settled (1, none)) := by
    simp [runNew, stepNew, Comp.bind, counting, NewState.init, NewState.settled, settle,
      InvokeCallOut, handlerCtx, Ctx.background]
  ⟨h, (New_memoized counting 0 _ (1, NewState.settled (1, none)) h).1⟩

/-- C3. `Wait` with a context that is already cancelled returns the zero value and the
context's error and leaves the world as it was, whatever the future is: the future is
not invoked. -/
theorem Wait_cancelled {σ Out : Type} [Inhabited Out] (ctx : Ctx) (f : Fut σ Out) (s : σ)
    (e : Error) (h : ctx.err = some e) :
    Wait ctx f s = .ok (default, some e) s := by
  simp [Wait, h]

/-- Witness of `Wait_cancelled`: the counting computation is not started. -/
theorem Wait_cancelled_witness :
    cancelledCtx.err = some Val.canceled ∧
    Wait cancelledCtx (New counting) (0, NewState.init) =
      .ok (default, some Val.canceled) (0, NewState.init) :=
  ⟨rfl, Wait_cancelled cancelledCtx (New counting) (0, NewState.init) Val.canceled rfl⟩

/-! ## `Wait` on a fresh future built by `New` -/

theorem Wait_New_ok {σ Out : Type} [Inhabited Out] (c : Ctx → Comp σ (Out × Option Error))
    (ctx : Ctx) (s s1 : σ) (r : Out × Option Error) (hctx : ctx.err = none)
    (hc : c ctx s = .ok r s1) :
    Wait ctx (New c) (s, NewState.init) = .ok (settle r) (s1, NewState.settled r) := by
  obtain ⟨o, e⟩ := r
  cases e <;>
    simp [Wait, New, Comp.bind, stepNew, newHandle, awaitDone, runNew, InvokeCallOut, hctx, hc,
      NewState.init, NewState.settled, settle]

theorem Wait_New_fatal {σ Out : Type} [Inhabited Out] (c : Ctx → Comp σ (Out × Option Error))
    (ctx : Ctx) (s : σ) (v : Option Val) (hctx : ctx.err = none) (hc : c ctx s = .fatal v) :
    Wait ctx (New c) (s, NewState.init) = .fatal v := by
  simp [Wait, New, Comp.bind, stepNew, newHandle, awaitDone, runNew, InvokeCallOut, hctx, hc,
    NewState.init]

theorem Wait_New_block {σ Out : Type} [Inhabited Out] (c : Ctx → Comp σ (Out × Option Error))
    (ctx : Ctx) (s : σ) (hctx : ctx.err = none) (hc : c ctx s = .block) :
    Wait ctx (New c) (s, NewState.init) = .block := by
  simp [Wait, New, Comp.bind, stepNew, newHandle, awaitDone, runNew, InvokeCallOut, hctx, hc,
    NewState.init]

theorem Wait_New_panic {σ Out : Type} [Inhabited Out] (c : Ctx → Comp σ (Out × Option Error))
    (ctx : Ctx) (s s1 : σ) (v : Option Val) (hctx : ctx.err = none)
    (hc : c ctx s = .panic v s1) :
    Wait ctx (New c) (s, NewState.init) =
      match recovered ctx v with
      | some localErr => .ok (settle (default, localErr)) (s1, NewState.settled (default, localErr))
      | none => .fatal v := by
  cases hr : recovered ctx v with
  | none =>
    simp [Wait, New, Comp.bind, stepNew, newHandle, awaitDone, runNew, InvokeCallOut, hctx, hc,
      NewState.init, hr]
  | some le =>
    cases le <;>
    simp [Wait, New, Comp.bind, stepNew, newHandle, awaitDone, runNew, InvokeCallOut, hctx, hc,
      NewState.init, hr, NewState.settled, settle]

/-- C9, as the code has it. For caller contexts that are not cancelled, and an inner
`Wait(fixedCtx, f)` that does not panic, waiting on a fresh `WithContext(f, fixedCtx)`
with `c1` and with `c2` gives the same result and the same world, and the value
returned is the one `Wait(fixedCtx, f)` returns (as `New` stores it). -/
theorem WithContext_ignores_caller {σ In : Type} [Inhabited In] (f : Fut σ In)
    (fixedCtx c1 c2 : Ctx) (s : σ) (h1 : c1.err = none) (h2 : c2.err = none)
    (hp : ∀ v s1, Wait fixedCtx f s ≠ .panic v s1) :
    Wait c1 (WithContext f fixedCtx) (s, NewState.init) =
      Wait c2 (WithContext f fixedCtx) (s, NewState.init) ∧
    (Wait c1 (WithContext f fixedCtx) (s, NewState.init)).value? =
      (Wait fixedCtx f s).value?.map settle := by
  unfold WithContext
  cases hw : Wait fixedCtx f s with
  | ok r s1 =>
    rw [Wait_New_ok _ c1 s s1 r h1 hw, Wait_New_ok _ c2 s s1 r h2 hw]
    exact ⟨rfl, rfl⟩
  | panic v s1 => exact absurd hw (hp v s1)
  | fatal v =>
    rw [Wait_New_fatal _ c1 s v h1 hw, Wait_New_fatal _ c2 s v h2 hw]
    exact ⟨rfl, rfl⟩
  | block =>
    rw [Wait_New_block _ c1 s h1 hw, Wait_New_block _ c2 s h2 hw]
    exact ⟨rfl, rfl⟩

/-- Witness of `WithContext_ignores_caller`: the upstream of `ExampleWait`, a caller
without values and a caller with a panic handler. -/
theorem WithContext_ignores_caller_witness :
    Wait Ctx.background (WithContext (New helloWorld) Ctx.background) (((), NewState.init), NewState.init) =
      Wait handlerCtx (WithContext (New helloWorld) Ctx.background) (((), NewState.init), NewState.init) ∧
    (Wait Ctx.background (WithContext (New helloWorld) Ctx.background)
      (((), NewState.init), NewState.init)).value? =
      (Wait Ctx.background (New helloWorld) ((), NewState.init)).value?.map settle :=
  WithContext_ignores_caller (New helloWorld) Ctx.background Ctx.background handlerCtx
    ((), NewState.init) rfl rfl (fun v s1 h => by
      rw [Wait_New_ok helloWorld Ctx.background () () ("Hello, World!", none) rfl rfl] at h
      cases h)

/-- C9 as stated fails: with the upstream of `ExampleWait`, a cancelled caller gets its
own cancellation error and a caller that is not cancelled gets the value. -/
theorem WithContext_caller_cancelled :
    (Wait cancelledCtx (WithContext (New helloWorld) Ctx.background)
      (((), NewState.init), NewState.init)).value? = some ("", some Val.canceled) ∧
    (Wait Ctx.background (WithContext (New helloWorld) Ctx.background)
      (((), NewState.init), NewState.init)).value? = some ("Hello, World!", none) ∧
    (Wait cancelledCtx (WithContext (New helloWorld) Ctx.background)
      (((), NewState.init), NewState.init)).value? ≠
    (Wait Ctx.background (WithContext (New helloWorld) Ctx.background)
      (((), NewState.init), NewState.init)).value? := by
  have h1 := Wait_New_ok helloWorld Ctx.background () () ("Hello, World!", none) rfl rfl
  have h2 := Wait_New_ok (fun _ => Wait Ctx.background (New helloWorld)) Ctx.background
    ((), NewState.init) _ _ rfl h1
  have hA : (Wait cancelledCtx (WithContext (New helloWorld) Ctx.background)
      (((), NewState.init), NewState.init)).value? = some ("", some Val.canceled) := rfl
  have hB : (Wait Ctx.background (WithContext (New helloWorld) Ctx.background)
      (((), NewState.init), NewState.init)).value? = some ("Hello, World!", none) := by
    unfold WithContext
    rw [h2]
    rfl
  refine ⟨hA, hB, ?_⟩
  rw [hA, hB]
  decide

/-! ## Schedules without cancellation -/

theorem stepNew_quiet {σ Out : Type} [Inhabited Out] (c : Ctx → Comp σ (Out × Option Error))
    (P : Ctx → Prop) (s0 s1 : σ) (r : Out × Option Error)
    (hc : ∀ ctx, ctx.err = none → P ctx → c ctx s0 = .ok r s1)
    (ev : Event) (w w2 : σ × NewState Out)
    (hq : ev.quiet (fun ctx => ctx.err = none ∧ P ctx))
    (hs : stepNew c ev w = .ok () w2) (hi : QuietInv P s0 s1 r w) : QuietInv P s0 s1 r w2 := by
  obtain ⟨s, pending, once, worker, dc, out, err, runs⟩ := w
  obtain ⟨hp, ho, hw, hnd, hd⟩ := hi
  cases ev with
  | invoke ctx =>
    simp only [stepNew] at hs; cases hs
    refine ⟨?_, ho, hw, hnd, hd⟩
    intro x hx
    simp only [List.mem_append, List.mem_singleton] at hx
    rcases hx with hx | hx
    · exact hp x hx
    · subst hx; exact hq
  | enter i =>
    simp only [stepNew] at hs
    split at hs
    · cases hs; exact ⟨hp, ho, hw, hnd, hd⟩
    · rename_i ctx hget
      have hctx : ctx.err = none ∧ P ctx := hp ctx (List.getElem?_mem hget)
      have hp2 : ∀ x ∈ pending.eraseIdx i, x.err = none ∧ P x :=
        fun x hx => hp x (List.mem_of_mem_eraseIdx hx)
      cases once <;> simp only at hs
      · rw [hctx.1] at hs
        cases hs
        obtain ⟨hdc, hab⟩ := ho
        cases worker <;> simp only at hab
        exact ⟨hp2, ⟨hctx.1, hctx.2, hdc⟩, ⟨hctx, hw⟩, hnd, hd⟩
      · cases hs; exact ⟨hp2, ho, hw, hnd, hd⟩
      · cases hs; exact ⟨hp2, ho, hw, hnd, hd⟩
  | cancelPending i e => exact absurd hq id
  | cancel e => exact absurd hq id
  | work =>
    simp only [stepNew] at hs
    cases worker with
    | spawned ctx =>
      simp only [InvokeCallOut] at hs
      obtain ⟨hctx, hs0⟩ := hw
      simp only at hs0
      subst hs0
      rw [hc ctx hctx.1 hctx.2] at hs
      cases hs
      exact ⟨hp, ho, ⟨rfl, rfl, rfl⟩, hnd, hd⟩
    | absent => cases hs; exact ⟨hp, ho, hw, hnd, hd⟩
    | stuck => cases hs; exact ⟨hp, ho, hw, hnd, hd⟩
    | exited a b => cases hs; exact ⟨hp, ho, hw, hnd, hd⟩
  | selectCtx =>
    simp only [stepNew] at hs
    cases once with
    | running ctx =>
      simp only at hs
      rw [ho.1] at hs
      cases hs; exact ⟨hp, ho, hw, hnd, hd⟩
    | idle => cases hs; exact ⟨hp, ho, hw, hnd, hd⟩
    | finished => cases hs; exact ⟨hp, ho, hw, hnd, hd⟩
  | selectLocal =>
    simp only [stepNew] at hs
    cases once <;> cases worker <;> simp only at hs <;>
      try (cases hs; exact ⟨hp, ho, hw, hnd, hd⟩)
    rename_i ctx lo le
    obtain ⟨hlo, hle, hs1⟩ := hw
    obtain ⟨hout, herr⟩ := hnd ho.2.2
    simp only at hout herr hlo hle
    cases le with
    | none =>
      cases hs
      refine ⟨hp, trivial, ⟨hlo, hle, hs1⟩, fun h => by simp at h, fun _ => ?_⟩
      simp [settle, ← hle, hlo, herr]
    | some e =>
      cases hs
      refine ⟨hp, trivial, ⟨hlo, hle, hs1⟩, fun h => by simp at h, fun _ => ?_⟩
      simp [settle, ← hle, hout]

theorem runNew_quiet {σ Out : Type} [Inhabited Out] (c : Ctx → Comp σ (Out × Option Error))
    (P : Ctx → Prop) (s0 s1 : σ) (r : Out × Option Error)
    (hc : ∀ ctx, ctx.err = none → P ctx → c ctx s0 = .ok r s1) (evs : List Event) :
    ∀ (w w2 : σ × NewState Out),
      (∀ ev ∈ evs, Event.quiet (fun ctx => ctx.err = none ∧ P ctx) ev) →
      runNew c evs w = .ok () w2 → QuietInv P s0 s1 r w → QuietInv P s0 s1 r w2 := by
  induction evs with
  | nil => intro w w2 _ hr hi; simp only [runNew] at hr; cases hr; exact hi
  | cons ev evs ih =>
    intro w w2 hq hr hi
    obtain ⟨w1, hs, hr1⟩ := runNew_cons_ok c ev evs w w2 hr
    exact ih w1 w2 (fun e he => hq e (List.mem_cons_of_mem _ he)) hr1
      (stepNew_quiet c P s0 s1 r hc ev w w1 (hq ev (List.mem_cons_self _ _)) hs hi)

/-- Every schedule agrees with the one `Wait` follows. A fresh future built by `New`
whose computation returns `r` on the initial world, for every context `P` allows:
along every schedule of invocations with such contexts, none cancelled, and of
goroutine steps, nothing but `r`, as `New` stores it, is ever published. -/
theorem New_publishes_only {σ Out : Type} [Inhabited Out] (c : Ctx → Comp σ (Out × Option Error))
    (P : Ctx → Prop) (s0 s1 : σ) (r : Out × Option Error)
    (hc : ∀ ctx, ctx.err = none → P ctx → c ctx s0 = .ok r s1) (evs : List Event)
    (hq : ∀ ev ∈ evs, Event.quiet (fun ctx => ctx.err = none ∧ P ctx) ev)
    (x : Out × Option Error) (hx : published (runNew c evs (s0, NewState.init)) = some x) :
    x = settle r := by
  cases hrun : runNew c evs (s0, NewState.init) with
  | ok a w =>
    rw [hrun] at hx
    have hi := runNew_quiet c P s0 s1 r hc evs (s0, NewState.init) w hq hrun
      ⟨by simp [NewState.init], ⟨rfl, trivial⟩, rfl, fun _ => ⟨rfl, rfl⟩, by simp [NewState.init]⟩
    obtain ⟨-, -, -, -, hd⟩ := hi
    simp only [published] at hx
    split at hx
    · rename_i hdone
      cases hx
      exact hd hdone
    · cases hx
  | panic v w => rw [hrun] at hx; cases hx
  | fatal v => rw [hrun] at hx; cases hx
  | block => rw [hrun] at hx; cases hx

/-! ## Panics in the computation -/

theorem runNew_append {σ Out : Type} [Inhabited Out] (c : Ctx → Comp σ (Out × Option Error))
    (evs1 evs2 : List Event) :
    ∀ w : σ × NewState Out,
      runNew c (evs1 ++ evs2) w = Comp.bind (runNew c evs1) (fun _ => runNew c evs2) w := by
  induction evs1 with
  | nil => intro w; rfl
  | cons ev evs ih =>
    intro w
    simp only [List.cons_append, runNew, Comp.bind]
    cases hs : stepNew c ev w with
    | ok a w1 => simpa [Comp.bind] using ih w1
    | panic v w1 => rfl
    | fatal v => rfl
    | block => rfl

theorem runNew_append_ok {σ Out : Type} [Inhabited Out] (c : Ctx → Comp σ (Out × Option Error))
    (evs1 evs2 : List Event) (w w1 : σ × NewState Out) (h : runNew c evs1 w = .ok () w1) :
    runNew c (evs1 ++ evs2) w = runNew c evs2 w1 := by
  rw [runNew_append]
  simp only [Comp.bind, h]

theorem stepNew_gov {σ Out : Type} [Inhabited Out] (c : Ctx → Comp σ (Out × Option Error))
    (h : PanicHandler) (p : Val) (hc : ∀ ctx s, ∃ s1, c ctx s = .panic (some p) s1)
    (ev : Event) (w w2 : σ × NewState Out)
    (hq : ev.quiet (fun ctx => ctx.err = none))
    (hs : stepNew c ev w = .ok () w2)
    (hi : GovInv (fun ctx => ctx.err = none ∧ ctx.panicHandler = some h) (panicErr h p) w.2) :
    GovInv (fun ctx => ctx.err = none ∧ ctx.panicHandler = some h) (panicErr h p) w2.2 := by
  obtain ⟨s, pending, once, worker, dc, out, err, runs⟩ := w
  obtain ⟨ho, hw, hout, hd⟩ := hi
  cases ev with
  | invoke ctx => simp only [stepNew] at hs; cases hs; exact ⟨ho, hw, hout, hd⟩
  | enter i =>
    simp only [stepNew] at hs
    split at hs
    · cases hs; exact ⟨ho, hw, hout, hd⟩
    · cases once <;> simp only at hs
      · exact absurd ho id
      · cases hs; exact ⟨ho, hw, hout, hd⟩
      · cases hs; exact ⟨ho, hw, hout, hd⟩
  | cancelPending i e => exact absurd hq id
  | cancel e => exact absurd hq id
  | work =>
    simp only [stepNew] at hs
    cases worker with
    | spawned ctx =>
      simp only [InvokeCallOut] at hs
      obtain ⟨s1, hc1⟩ := hc ctx s
      have hctx : ctx.err = none ∧ ctx.panicHandler = some h := hw
      rw [hc1] at hs
      simp only [recovered, hctx.2] at hs
      cases hh : h (some p) <;> rw [hh] at hs <;> cases hs <;>
        exact ⟨ho, ⟨rfl, by simp [panicErr, hh]⟩, hout, hd⟩
    | absent => cases hs; exact ⟨ho, hw, hout, hd⟩
    | stuck => cases hs; exact ⟨ho, hw, hout, hd⟩
    | exited a b => cases hs; exact ⟨ho, hw, hout, hd⟩
  | selectCtx =>
    simp only [stepNew] at hs
    cases once with
    | running ctx =>
      simp only at hs
      have hctx : ctx.err = none ∧ ctx.panicHandler = some h := ho.1
      rw [hctx.1] at hs
      cases hs; exact ⟨ho, hw, hout, hd⟩
    | idle => cases hs; exact ⟨ho, hw, hout, hd⟩
    | finished => cases hs; exact ⟨ho, hw, hout, hd⟩
  | selectLocal =>
    simp only [stepNew] at hs
    cases once <;> cases worker <;> simp only at hs <;>
      try (cases hs; exact ⟨ho, hw, hout, hd⟩)
    rename_i ctx lo le
    obtain ⟨hlo, hle⟩ := hw
    subst hle
    cases hs
    exact ⟨trivial, ⟨hlo, rfl⟩, hout, fun _ => rfl⟩

theorem runNew_gov {σ Out : Type} [Inhabited Out] (c : Ctx → Comp σ (Out × Option Error))
    (h : PanicHandler) (p : Val) (hc : ∀ ctx s, ∃ s1, c ctx s = .panic (some p) s1)
    (evs : List Event) :
    ∀ (w w2 : σ × NewState Out),
      (∀ ev ∈ evs, Event.quiet (fun ctx => ctx.err = none) ev) →
      runNew c evs w = .ok () w2 →
      GovInv (fun ctx => ctx.err = none ∧ ctx.panicHandler = some h) (panicErr h p) w.2 →
      GovInv (fun ctx => ctx.err = none ∧ ctx.panicHandler = some h) (panicErr h p) w2.2 := by
  induction evs with
  | nil => intro w w2 _ hr hi; simp only [runNew] at hr; cases hr; exact hi
  | cons ev evs ih =>
    intro w w2 hq hr hi
    obtain ⟨w1, hs, hr1⟩ := runNew_cons_ok c ev evs w w2 hr
    exact ih w1 w2 (fun e he => hq e (List.mem_cons_of_mem _ he)) hr1
      (stepNew_gov c h p hc ev w w1 (hq ev (List.mem_cons_self _ _)) hs hi)

/-- Before the `Once` is taken only the list of waiting goroutines changes; the first
goroutine that calls `once.Do` makes its context the governing one. -/
theorem runNew_governed {σ Out : Type} [Inhabited Out] (c : Ctx → Comp σ (Out × Option Error))
    (h : PanicHandler) (p : Val) (hc : ∀ ctx s, ∃ s1, c ctx s = .panic (some p) s1)
    (s : σ) (g : Ctx) (hg : g.panicHandler = some h) (evs : List Event) :
    ∀ (pending : List Ctx) (w2 : σ × NewState Out),
      (∀ x ∈ pending, x.err = none) →
      (∀ ev ∈ evs, Event.quiet (fun ctx => ctx.err = none) ev) →
      governing evs pending = some g →
      runNew c evs (s, { (NewState.init : NewState Out) with pending := pending }) = .ok () w2 →
      GovInv (fun ctx => ctx.err = none ∧ ctx.panicHandler = some h) (panicErr h p) w2.2 := by
  induction evs with
  | nil => intro pending w2 _ _ hgov _; simp [governing] at hgov
  | cons ev evs ih =>
    intro pending w2 hp hq hgov hr
    have hq1 : ∀ e ∈ evs, Event.quiet (fun ctx => ctx.err = none) e :=
      fun e he => hq e (List.mem_cons_of_mem _ he)
    have hq0 := hq ev (List.mem_cons_self _ _)
    obtain ⟨w1, hs, hr1⟩ := runNew_cons_ok c ev evs _ w2 hr
    cases ev with
    | invoke ctx =>
      simp only [stepNew, NewState.init] at hs; cases hs
      simp only [governing] at hgov
      refine ih (pending ++ [ctx]) w2 ?_ hq1 hgov hr1
      intro x hx
      simp only [List.mem_append, List.mem_singleton] at hx
      rcases hx with hx | hx
      · exact hp x hx
      · subst hx; exact hq0
    | enter i =>
      simp only [governing] at hgov
      cases hget : pending[i]? with
      | none =>
        rw [hget] at hgov
        simp only [stepNew, NewState.init, hget] at hs; cases hs
        exact ih pending w2 hp hq1 hgov hr1
      | some x =>
        rw [hget] at hgov
        have hxg : x = g := Option.some.inj hgov
        subst hxg
        have hx : x.err = none := hp x (List.getElem?_mem hget)
        simp only [stepNew, NewState.init, hget, hx] at hs; cases hs
        exact runNew_gov c h p hc evs _ w2 hq1 hr1 ⟨⟨⟨hx, hg⟩, rfl⟩, ⟨hx, hg⟩, rfl, by simp⟩
    | cancelPending i e => exact absurd hq0 id
    | cancel e => exact absurd hq0 id
    | work =>
      simp only [stepNew, NewState.init] at hs; cases hs
      exact ih pending w2 hp hq1 hgov hr1
    | selectCtx =>
      simp only [stepNew, NewState.init] at hs; cases hs
      exact ih pending w2 hp hq1 hgov hr1
    | selectLocal =>
      simp only [stepNew, NewState.init] at hs; cases hs
      exact ih pending w2 hp hq1 hgov hr1

theorem stepNew_waiting {σ Out : Type} [Inhabited Out] (c : Ctx → Comp σ (Out × Option Error))
    (g : Ctx) (hg : g.err = none) (ev : Event) (w w2 : σ × NewState Out)
    (hq : ev.quiet (fun ctx => ctx.err = none))
    (hs : stepNew c ev w = .ok () w2) (hi : WaitingInv g w.2) : WaitingInv g w2.2 := by
  obtain ⟨s, pending, once, worker, dc, out, err, runs⟩ := w
  obtain ⟨ho, hout⟩ := hi
  cases ev with
  | cancelPending i e => exact absurd hq id
  | cancel e => exact absurd hq id
  | invoke ctx => simp only [stepNew] at hs; cases hs; exact ⟨ho, hout⟩
  | enter i =>
    simp only [stepNew] at hs
    split at hs
    · cases hs; exact ⟨ho, hout⟩
    · cases once <;> simp only at hs
      · exact absurd ho id
      · cases hs; exact ⟨ho, hout⟩
      · cases hs; exact ⟨ho, hout⟩
  | work =>
    simp only [stepNew] at hs
    repeat' split at hs
    all_goals cases hs
    all_goals exact ⟨ho, hout⟩
  | selectCtx =>
    simp only [stepNew] at hs
    cases once with
    | running ctx =>
      simp only at hs
      obtain ⟨hctx, hdc⟩ := ho
      subst hctx
      rw [hg] at hs
      cases hs; exact ⟨⟨rfl, hdc⟩, hout⟩
    | idle => cases hs; exact ⟨ho, hout⟩
    | finished => cases hs; exact ⟨ho, hout⟩
  | selectLocal =>
    simp only [stepNew] at hs
    cases once <;> cases worker <;> simp only at hs <;>
      try (cases hs; exact ⟨ho, hout⟩)
    rename_i ctx lo le
    cases le <;> cases hs <;> exact ⟨rfl, fun hf => by simp at hf⟩

theorem runNew_waiting {σ Out : Type} [Inhabited Out] (c : Ctx → Comp σ (Out × Option Error))
    (g : Ctx) (hg : g.err = none) (evs : List Event) :
    ∀ (w w2 : σ × NewState Out),
      (∀ ev ∈ evs, Event.quiet (fun ctx => ctx.err = none) ev) →
      runNew c evs w = .ok () w2 → WaitingInv g w.2 → WaitingInv g w2.2 := by
  induction evs with
  | nil => intro w w2 _ hr hi; simp only [runNew] at hr; cases hr; exact hi
  | cons ev evs ih =>
    intro w w2 hq hr hi
    obtain ⟨w1, hs, hr1⟩ := runNew_cons_ok c ev evs w w2 hr
    exact ih w1 w2 (fun e he => hq e (List.mem_cons_of_mem _ he)) hr1
      (stepNew_waiting c g hg ev w w1 (hq ev (List.mem_cons_self _ _)) hs hi)

theorem stepNew_fail {σ Out : Type} [Inhabited Out] (c : Ctx → Comp σ (Out × Option Error))
    (p : Val) (hc : ∀ ctx s, ∃ s1, c ctx s = .panic (some p) s1)
    (ev : Event) (w w2 : σ × NewState Out)
    (hs : stepNew c ev w = .ok () w2) (hi : FailInv w.2) : FailInv w2.2 := by
  obtain ⟨s, pending, once, worker, dc, out, err, runs⟩ := w
  obtain ⟨hw, hout, hd⟩ := hi
  cases ev with
  | work =>
    simp only [stepNew] at hs
    cases worker with
    | spawned ctx =>
      simp only [InvokeCallOut] at hs
      obtain ⟨s1, hc1⟩ := hc ctx s
      rw [hc1] at hs
      simp only [recovered] at hs
      cases hh : ctx.panicHandler with
      | none => simp only [hh] at hs; cases hs
      | some g =>
        simp only [hh] at hs
        cases hg : g (some p) <;> simp only [hg] at hs <;> cases hs <;>
          exact ⟨by simp, hout, hd⟩
    | absent => cases hs; exact ⟨hw, hout, hd⟩
    | stuck => cases hs; exact ⟨hw, hout, hd⟩
    | exited a b => cases hs; exact ⟨hw, hout, hd⟩
  | invoke ctx => simp only [stepNew] at hs; cases hs; exact ⟨hw, hout, hd⟩
  | enter i =>
    simp only [stepNew] at hs
    repeat' split at hs
    all_goals cases hs
    all_goals first
      | exact ⟨hw, hout, hd⟩
      | exact ⟨hw, hout, fun _ => by simp⟩
      | exact ⟨trivial, hout, hd⟩
  | cancelPending i e =>
    simp only [stepNew] at hs
    repeat' split at hs
    all_goals cases hs
    all_goals exact ⟨hw, hout, hd⟩
  | cancel e =>
    simp only [stepNew] at hs
    repeat' split at hs
    all_goals cases hs
    all_goals exact ⟨hw, hout, hd⟩
  | selectCtx =>
    simp only [stepNew] at hs
    repeat' split at hs
    all_goals cases hs
    all_goals first
      | exact ⟨hw, hout, hd⟩
      | exact ⟨hw, hout, fun _ => by simp⟩
  | selectLocal =>
    simp only [stepNew] at hs
    cases once <;> cases worker <;> simp only at hs <;> try (cases hs; exact ⟨hw, hout, hd⟩)
    rename_i ctx lo le
    cases le with
    | none => exact absurd rfl hw
    | some e => cases hs; exact ⟨hw, hout, fun _ => by simp⟩

theorem runNew_fail {σ Out : Type} [Inhabited Out] (c : Ctx → Comp σ (Out × Option Error))
    (p : Val) (hc : ∀ ctx s, ∃ s1, c ctx s = .panic (some p) s1) (evs : List Event) :
    ∀ (w w2 : σ × NewState Out), runNew c evs w = .ok () w2 → FailInv w.2 → FailInv w2.2 := by
  induction evs with
  | nil => intro w w2 hr hi; simp only [runNew] at hr; cases hr; exact hi
  | cons ev evs ih =>
    intro w w2 hr hi
    obtain ⟨w1, hs, hr1⟩ := runNew_cons_ok c ev evs w w2 hr
    exact ih w1 w2 hr1 (stepNew_fail c p hc ev w w1 hs hi)

/-- C10, as the code has it. A computation that panics with the non-nil payload `p`,
in a future built by `New`. (1) Invoked with a context that is not cancelled and has
the handler `h`, the future settles, its goroutines having run, with the zero value
and the error `h(p)`, or `&ErrPanic{Value: p}` when `h(p)` is nil. (2) Along every
schedule in which no context is cancelled, whatever handlers the invoking contexts
carry: if the governing context, the one that wins the `Once`, has the handler `h`,
nothing else is ever published. (3) A governing context that is already cancelled
with the error `e` when it wins the `Once` makes the future settle with the zero
value and `e`. (4) A governing context that is cancelled with `e` while nothing is
published yet, after any schedule without cancellation, makes the future settle with
the zero value and `e` when the `select` takes `<-ctx.Done()`. (5) Along every
schedule whatsoever, with cancellations and with contexts without a handler, what is
published has a non-nil error: never a success. -/
theorem New_panic_is_failure {σ Out : Type} [Inhabited Out]
    (c : Ctx → Comp σ (Out × Option Error)) (h : PanicHandler) (p : Val)
    (hc : ∀ ctx s, ∃ s1, c ctx s = .panic (some p) s1) (s : σ) :
    (∀ ctx : Ctx, ctx.err = none → ctx.panicHandler = some h →
      published (runNew c [.invoke ctx, .enter 0, .work, .selectLocal] (s, NewState.init)) =
        some (default, some (panicErr h p))) ∧
    (∀ (evs : List Event) (g : Ctx),
      (∀ ev ∈ evs, Event.quiet (fun ctx => ctx.err = none) ev) →
      governing evs [] = some g → g.panicHandler = some h →
      ∀ r, published (runNew c evs (s, NewState.init)) = some r →
        r = (default, some (panicErr h p))) ∧
    (∀ (ctx : Ctx) (e : Error), ctx.err = some e →
      published (runNew c [.invoke ctx, .enter 0] (s, NewState.init)) = some (default, some e)) ∧
    (∀ (ctx : Ctx) (e : Error) (pre : List Event) (w : σ × NewState Out), ctx.err = none →
      (∀ ev ∈ pre, Event.quiet (fun x => x.err = none) ev) →
      runNew c ([.invoke ctx, .enter 0] ++ pre) (s, NewState.init) = .ok () w →
      w.2.doneClosed = false →
      published (runNew c ([.invoke ctx, .enter 0] ++ pre ++ [.cancel e, .selectCtx])
        (s, NewState.init)) = some (default, some e)) ∧
    (∀ (evs : List Event) (r : Out × Option Error),
      published (runNew c evs (s, NewState.init)) = some r → r.2 ≠ none) := by
  refine ⟨?_, ?_, ?_, ?_, ?_⟩
  · intro ctx hctx hh
    obtain ⟨s1, hc1⟩ := hc ctx s
    cases hg : h (some p) <;>
      simp [published, runNew, Comp.bind, stepNew, InvokeCallOut, NewState.init, hctx, hh, hc1,
        recovered, panicErr, hg]
  · intro evs g hq hgov hg r hr
    cases hrun : runNew c evs (s, NewState.init) with
    | ok a w =>
      rw [hrun] at hr
      have hi := runNew_governed c h p hc s g hg evs [] w (fun x hx => by simp at hx) hq hgov hrun
      obtain ⟨-, -, hout, hd⟩ := hi
      simp only [published] at hr
      split at hr
      · rename_i hdone
        cases hr
        rw [hout, hd hdone]
      · cases hr
    | panic v w => rw [hrun] at hr; cases hr
    | fatal v => rw [hrun] at hr; cases hr
    | block => rw [hrun] at hr; cases hr
  · intro ctx e hctx
    simp [published, runNew, Comp.bind, stepNew, NewState.init, hctx]
  · intro ctx e pre w hctx hq hrun hopen
    have h0 : runNew c [.invoke ctx, .enter 0] (s, NewState.init) =
        .ok () (s, { (NewState.init : NewState Out) with
          once := .running ctx, worker := .spawned ctx }) := by
      simp [runNew, Comp.bind, stepNew, NewState.init, hctx]
    have hpre := hrun
    rw [runNew_append_ok c _ pre _ _ h0] at hpre
    have hi := runNew_waiting c ctx hctx pre _ w hq hpre ⟨⟨rfl, rfl⟩, fun _ => rfl⟩
    rw [runNew_append_ok c _ [.cancel e, .selectCtx] _ _ hrun]
    clear hrun hpre h0
    obtain ⟨s2, pending, once, worker, dc, out, err, runs⟩ := w
    obtain ⟨ho, hout⟩ := hi
    simp only at hopen
    subst hopen
    have hout2 : out = default := hout rfl
    subst hout2
    cases once with
    | idle => exact absurd ho id
    | finished => exact absurd ho (by simp)
    | running x =>
      obtain ⟨hx, -⟩ := ho
      subst hx
      cases worker <;>
        simp [published, runNew, Comp.bind, stepNew, Ctx.cancelWith, hctx]
  · intro evs r hr
    cases hrun : runNew c evs (s, NewState.init) with
    | ok a w =>
      rw [hrun] at hr
      have hi := runNew_fail c p hc evs (s, NewState.init) w hrun
        ⟨trivial, rfl, by simp [NewState.init]⟩
      obtain ⟨-, -, hd⟩ := hi
      simp only [published] at hr
      split at hr
      · rename_i hdone
        cases hr
        exact hd hdone
      · cases hr
    | panic v w => rw [hrun] at hr; cases hr
    | fatal v => rw [hrun] at hr; cases hr
    | block => rw [hrun] at hr; cases hr

/-- Witness of `New_panic_is_failure`: the computation that panics with `"boom"` under
the handler `handling` settles with the error `handled`; when its context is cancelled
with `context.DeadlineExceeded` after the worker has ended and the `select` takes
`<-ctx.Done()`, it settles with `context.DeadlineExceeded`. -/
theorem New_panic_is_failure_witness :
    (∀ ctx s, ∃ s1, booming ctx s = .panic (some (Val.str "boom")) s1) ∧
    published (runNew booming [.invoke handlerCtx, .enter 0, .work, .selectLocal]
      ((), NewState.init)) = some (default, some (panicErr handling (Val.str "boom"))) ∧
    published (runNew booming ([.invoke handlerCtx, .enter 0] ++ [.work] ++
      [.cancel Val.deadlineExceeded, .selectCtx]) ((), NewState.init)) =
      some (default, some Val.deadlineExceeded) :=
  ⟨fun _ s => ⟨s, rfl⟩,
   (New_panic_is_failure booming handling (Val.str "boom") (fun _ s => ⟨s, rfl⟩) ()).1
     handlerCtx rfl rfl,
   (New_panic_is_failure booming handling (Val.str "boom") (fun _ s => ⟨s, rfl⟩) ()).2.2.2.1
     handlerCtx Val.deadlineExceeded [.work]
     ((), { pending := [], once := .running handlerCtx,
            worker := .exited default (some (Val.errorString "handled")),
            doneClosed := false, out := default, err := none, runs := 1 })
     rfl (fun ev hev => by simp only [List.mem_singleton] at hev; subst hev; trivial) rfl rfl⟩

/-- C10 as stated fails: the computation panics with `"boom"`, the handler of the
governing context returns the error `handled`, the context is cancelled while the
`select` waits, and the future settles with `context.Canceled`, not with `handled`. -/
theorem New_panic_cancelled :
    published (runNew booming [.invoke handlerCtx, .enter 0, .work, .cancel Val.canceled,
      .selectCtx] ((), NewState.init)) = some ("", some Val.canceled) ∧
    handling (some (Val.str "boom")) = some (Val.errorString "handled") ∧
    published (runNew booming [.invoke handlerCtx, .enter 0, .work, .cancel Val.canceled,
      .selectCtx] ((), NewState.init)) ≠
      some ("", handling (some (Val.str "boom"))) := by
  have h : published (runNew booming [.invoke handlerCtx, .enter 0, .work, .cancel Val.canceled,
      .selectCtx] ((), NewState.init)) = some ("", some Val.canceled) := rfl
  refine ⟨h, rfl, ?_⟩
  rw [h]
  decide


/-! ## The constant futures and `Poll` on the code -/

/-- C2 on the code. With a context that is not cancelled, `Wait` on `Fixed(v)` and on
`Err(e)` dereferences a nil pointer and panics, and so does `MustWait` on `Fixed(v)`:
neither `(v, nil)` nor the error `e` is returned. -/
theorem Wait_Fixed_Err_nil_deref {σ Out : Type} [Inhabited Out] (ctx : Ctx) (v : Out) (e : Error)
    (s : σ) :
    Wait { ctx with err := none } (Fixed v) s = .panic (some Val.nilDeref) s ∧
    Wait { ctx with err := none } (Err (some e) : Fut σ Out) s = .panic (some Val.nilDeref) s ∧
    MustWait { ctx with err := none } (Fixed v) s = .panic (some Val.nilDeref) s :=
  ⟨rfl, rfl, rfl⟩

/-- C7 on the code. An invocation of `Fixed(v)` returns a nil error pointer and an
invocation of `Err(e)` returns a nil result pointer; an invocation of a future built
by `New`, or returned by `Start`, returns two pointers that are not nil. -/
theorem Fixed_Err_nil_pointer {σ Out : Type} [Inhabited Out] (ctx ctx0 : Ctx) (v : Out)
    (e : Option Error) (s : σ) (c : Ctx → Comp σ (Out × Option Error)) (w : σ × NewState Out) :
    (Fixed v ctx s).value?.map (fun h => (h.outPtr.isSome, h.errPtr.isSome)) = some (true, false) ∧
    ((Err e : Fut σ Out) ctx s).value?.map (fun h => (h.outPtr.isSome, h.errPtr.isSome)) =
      some (false, true) ∧
    (New c ctx w).value?.map (fun h => (h.outPtr.isSome, h.errPtr.isSome)) = some (true, true) ∧
    ((Start ctx0 c s).1 ctx w).value?.map (fun h => (h.outPtr.isSome, h.errPtr.isSome)) =
      some (true, true) :=
  ⟨rfl, rfl, rfl, rfl⟩

/-- C6 on the code. The future of `ExampleWait`, once `Wait` has returned its value:
`Poll` returns a nil pointer and a nil error, which is its answer for a future that is
not ready. The same holds for every future built by `New` that settled with a value. -/
theorem Poll_settled_success_not_ready {σ Out : Type} [Inhabited Out] (ctx : Ctx)
    (c : Ctx → Comp σ (Out × Option Error)) (v : Out) (s : σ) :
    Wait Ctx.background (New helloWorld) ((), NewState.init) =
      .ok ("Hello, World!", none) ((), NewState.settled ("Hello, World!", none)) ∧
    (Poll Ctx.background (New helloWorld) ((), NewState.settled ("Hello, World!", none))).value?.map
      (fun r => (r.1.isSome, r.2)) = some (false, none) ∧
    (Poll Ctx.background (New helloWorld) ((), NewState.init)).value?.map
      (fun r => (r.1.isSome, r.2)) = some (false, none) ∧
    (Poll ctx (New c) (s, NewState.settled (v, none))).value?.map
      (fun r => (r.1.isSome, r.2)) = some (false, none) :=
  ⟨rfl, rfl, rfl, rfl⟩

/-! ## The combinators on the constant futures -/

/-- C4 on the code. `Then` on `Fixed(v)` and `ThenErr` on `Err(e)`, waited on with
`context.TODO()` as in `ExampleThen` and `ExampleThenErr`: the worker panics on the
nil pointer and, no handler being registered, the panic is raised again and ends the
process, whatever the continuation is. With a panic handler the future settles with
the handler's error although the upstream is `Fixed(v)`. -/
theorem Then_Fixed_crashes {σ In Out : Type} [Inhabited In] [Inhabited Out] (v : In) (e : Error)
    (c : Ctx → In → Comp σ (Out × Option Error))
    (cErr : Ctx → Option Error → Comp σ (In × Option Error)) (s : σ) :
    Wait Ctx.background (Then (Fixed v) c) (s, NewState.init) = .fatal (some Val.nilDeref) ∧
    Wait Ctx.background (ThenErr (Err (some e)) cErr) (s, NewState.init) =
      .fatal (some Val.nilDeref) ∧
    (Wait handlerCtx (Then (Fixed v) c) (s, NewState.init)).value? =
      some (default, some (Val.errorString "handled")) :=
  ⟨rfl, rfl, rfl⟩

/-- C8 on the code. `DeferOK` on `Fixed(v)` and `DeferErr` on `Err(e)`: `Wait` panics
on the nil pointer, the deferred closure sees `success` false and `err` nil, and the
side effect is not invoked: with a panic handler the future settles with the
handler's error and the world is untouched, whatever the side effect is; with
`context.TODO()`, as in the examples, the process ends. `Defer` does run its side
effect and then the process ends. -/
theorem DeferOK_Fixed_skips {σ In : Type} [Inhabited In] (v : In) (e : Error)
    (c : Ctx → In → Comp σ (Option Error)) (cErr : Ctx → Option Error → Comp σ (Option Error))
    (s : σ) :
    (∃ st, Wait handlerCtx (DeferOK (Fixed v) c) (s, NewState.init) =
      .ok (default, some (Val.errorString "handled")) (s, st)) ∧
    (∃ st, Wait handlerCtx (DeferErr (Err (some e) : Fut σ In) cErr) (s, NewState.init) =
      .ok (default, some (Val.errorString "handled")) (s, st)) ∧
    Wait Ctx.background (DeferOK (Fixed v) c) (s, NewState.init) = .fatal (some Val.nilDeref) ∧
    Wait Ctx.background (DeferErr (Err (some e) : Fut σ In) cErr) (s, NewState.init) =
      .fatal (some Val.nilDeref) ∧
    (∃ st, Wait handlerCtx (Defer (Fixed (", World!")) tick) (0, NewState.init) =
      .ok (default, some (Val.errorString "handled")) (1, st)) ∧
    Wait Ctx.background (Defer (Fixed (", World!")) tick) (0, NewState.init) =
      .fatal (some Val.nilDeref) :=
  ⟨⟨_, rfl⟩, ⟨_, rfl⟩, rfl, rfl, ⟨_, rfl⟩, rfl⟩

/-- C5 on the code. `All(Fixed(0), Fixed(1), Fixed(2))`, whichever goroutine completes
first: that goroutine panics on the nil pointer, nothing recovers the panic, and the
process ends; the sequence `[0, 1, 2]` is not returned. -/
theorem All_Fixed_crashes {σ : Type} (ctx : Ctx) (rest : List Nat) (s : σ) :
    Wait { ctx with err := none } (All (0 :: rest) [Fixed (0 : Nat), Fixed 1, Fixed 2])
      (s, NewState.init) = .fatal (some Val.nilDeref) ∧
    Wait { ctx with err := none } (All (1 :: rest) [Fixed (0 : Nat), Fixed 1, Fixed 2])
      (s, NewState.init) = .fatal (some Val.nilDeref) ∧
    Wait { ctx with err := none } (All (2 :: rest) [Fixed (0 : Nat), Fixed 1, Fixed 2])
      (s, NewState.init) = .fatal (some Val.nilDeref) :=
  ⟨rfl, rfl, rfl⟩


/-! ## The combinators on futures that keep the contract of `Fut`

For an upstream on which `Wait` returns (its pointers are not nil), the combinators
do what their names say. The context is not cancelled. -/

/-- `Then`, upstream value `v`: the future settles with what the continuation returns
for `v`. -/
theorem Then_of_success {σ In Out : Type} [Inhabited In] [Inhabited Out] (f : Fut σ In)
    (c : Ctx → In → Comp σ (Out × Option Error)) (ctx : Ctx) (s s1 s2 : σ) (v : In)
    (r : Out × Option Error) (hctx : ctx.err = none) (hw : Wait ctx f s = .ok (v, none) s1)
    (hc : c ctx v s1 = .ok r s2) :
    Wait ctx (Then f c) (s, NewState.init) = .ok (settle r) (s2, NewState.settled r) :=
  Wait_New_ok _ ctx s s2 r hctx (by simp [Comp.bind, hw, InvokeCallInOut, hc])

/-- `Then`, upstream error `e`: the future settles with `e`, whatever the continuation
is, and the world is the one the upstream left. -/
theorem Then_of_failure {σ In Out : Type} [Inhabited In] [Inhabited Out] (f : Fut σ In)
    (c : Ctx → In → Comp σ (Out × Option Error)) (ctx : Ctx) (s s1 : σ) (v : In) (e : Error)
    (hctx : ctx.err = none) (hw : Wait ctx f s = .ok (v, some e) s1) :
    Wait ctx (Then f c) (s, NewState.init) =
      .ok (default, some e) (s1, NewState.settled (default, some e)) :=
  Wait_New_ok _ ctx s s1 (default, some e) hctx (by simp [Comp.bind, hw])

/-- `ThenErr`, upstream error `e`: the future settles with what the continuation
returns for `e`. -/
theorem ThenErr_of_failure {σ In : Type} [Inhabited In] (f : Fut σ In)
    (c : Ctx → Option Error → Comp σ (In × Option Error)) (ctx : Ctx) (s s1 s2 : σ) (v : In)
    (e : Error) (r : In × Option Error) (hctx : ctx.err = none)
    (hw : Wait ctx f s = .ok (v, some e) s1) (hc : c ctx (some e) s1 = .ok r s2) :
    Wait ctx (ThenErr f c) (s, NewState.init) = .ok (settle r) (s2, NewState.settled r) :=
  Wait_New_ok _ ctx s s2 r hctx (by simp [Comp.bind, hw, InvokeCallInOut, hc])

/-- `ThenErr`, upstream value `v`: the future settles with `v`, whatever the
continuation is, and the world is the one the upstream left. -/
theorem ThenErr_of_success {σ In : Type} [Inhabited In] (f : Fut σ In)
    (c : Ctx → Option Error → Comp σ (In × Option Error)) (ctx : Ctx) (s s1 : σ) (v : In)
    (hctx : ctx.err = none) (hw : Wait ctx f s = .ok (v, none) s1) :
    Wait ctx (ThenErr f c) (s, NewState.init) = .ok (v, none) (s1, NewState.settled (v, none)) :=
  Wait_New_ok _ ctx s s1 (v, none) hctx (by simp [Comp.bind, hw])

/-- `Defer`: the side effect runs once, on the world the upstream left, for a value
and for an error alike, and the upstream's pair is kept. -/
theorem Defer_runs {σ In : Type} [Inhabited In] (f : Fut σ In) (c : Ctx → Comp σ (Option Error))
    (ctx : Ctx) (s s1 s2 : σ) (r : In × Option Error) (x : Option Error) (hctx : ctx.err = none)
    (hw : Wait ctx f s = .ok r s1) (hc : c ctx s1 = .ok x s2) :
    Wait ctx (Defer f c) (s, NewState.init) = .ok (settle r) (s2, NewState.settled r) :=
  Wait_New_ok _ ctx s s2 r hctx (by simp [Comp.withDefer, Comp.bind, hw, hc])

/-- `DeferOK`, upstream value `v`: the side effect runs once, with `v`. -/
theorem DeferOK_of_success {σ In : Type} [Inhabited In] (f : Fut σ In)
    (c : Ctx → In → Comp σ (Option Error)) (ctx : Ctx) (s s1 s2 : σ) (v : In) (x : Option Error)
    (hctx : ctx.err = none) (hw : Wait ctx f s = .ok (v, none) s1) (hc : c ctx v s1 = .ok x s2) :
    Wait ctx (DeferOK f c) (s, NewState.init) = .ok (v, none) (s2, NewState.settled (v, none)) :=
  Wait_New_ok _ ctx s s2 (v, none) hctx
    (by simp [Comp.withDefer, Comp.bind, hw, InvokeCallIn, hc])

/-- `DeferOK`, upstream error `e`: the side effect does not run. -/
theorem DeferOK_of_failure {σ In : Type} [Inhabited In] (f : Fut σ In)
    (c : Ctx → In → Comp σ (Option Error)) (ctx : Ctx) (s s1 : σ) (v : In) (e : Error)
    (hctx : ctx.err = none) (hw : Wait ctx f s = .ok (v, some e) s1) :
    Wait ctx (DeferOK f c) (s, NewState.init) =
      .ok (default, some e) (s1, NewState.settled (v, some e)) :=
  Wait_New_ok _ ctx s s1 (v, some e) hctx (by simp [Comp.withDefer, hw])

/-- `DeferErr`, upstream error `e`: the side effect runs once, with `e`. -/
theorem DeferErr_of_failure {σ In : Type} [Inhabited In] (f : Fut σ In)
    (c : Ctx → Option Error → Comp σ (Option Error)) (ctx : Ctx) (s s1 s2 : σ) (v : In)
    (e : Error) (x : Option Error) (hctx : ctx.err = none)
    (hw : Wait ctx f s = .ok (v, some e) s1) (hc : c ctx (some e) s1 = .ok x s2) :
    Wait ctx (DeferErr f c) (s, NewState.init) =
      .ok (default, some e) (s2, NewState.settled (v, some e)) :=
  Wait_New_ok _ ctx s s2 (v, some e) hctx
    (by simp [Comp.withDefer, Comp.bind, hw, InvokeCallIn, hc])

/-- `DeferErr`, upstream value `v`: the side effect does not run. -/
theorem DeferErr_of_success {σ In : Type} [Inhabited In] (f : Fut σ In)
    (c : Ctx → Option Error → Comp σ (Option Error)) (ctx : Ctx) (s s1 : σ) (v : In)
    (hctx : ctx.err = none) (hw : Wait ctx f s = .ok (v, none) s1) :
    Wait ctx (DeferErr f c) (s, NewState.init) = .ok (v, none) (s1, NewState.settled (v, none)) :=
  Wait_New_ok _ ctx s s1 (v, none) hctx (by simp [Comp.withDefer, hw])

/-- The test `ExampleThen` with the upstream built by `New` instead of `Fixed`. -/
theorem Then_of_success_example :
    (Wait Ctx.background (Then (New (fun _ s => .ok ("Hello", none) s)) appendWorld)
      (((), NewState.init), NewState.init)).value? = some ("Hello, World!", none) := by
  rw [Then_of_success (New (fun _ s => .ok ("Hello", none) s)) appendWorld Ctx.background
    ((), NewState.init) ((), NewState.settled ("Hello", none)) ((), NewState.settled ("Hello", none))
    "Hello" ("Hello, World!", none) rfl rfl rfl]
  rfl


theorem foldl_set_length {Out : Type} (x : Nat → Out) (order : List Nat) :
    ∀ outs : List Out, (order.foldl (fun o i => o.set i (x i)) outs).length = outs.length := by
  induction order with
  | nil => intro outs; rfl
  | cons i rest ih => intro outs; simp only [List.foldl_cons]; rw [ih]; simp

theorem foldl_set_getElem? {Out : Type} (x : Nat → Out) (order : List Nat) :
    ∀ (outs : List Out) (j : Nat), j < outs.length →
      (order.foldl (fun o i => o.set i (x i)) outs)[j]? =
        if j ∈ order then some (x j) else outs[j]? := by
  induction order with
  | nil => intro outs j _; simp
  | cons i rest ih =>
    intro outs j hj
    simp only [List.foldl_cons]
    rw [ih (outs.set i (x i)) j (by simpa using hj)]
    by_cases hjr : j ∈ rest
    · simp [hjr]
    · by_cases hji : j = i
      · subst hji
        simp [hjr, List.getElem?_set_self, hj]
      · have hij : i ≠ j := fun h => hji h.symm
        simp [hjr, hji, List.getElem?_set_ne hij]

theorem foldl_set_all {Out : Type} [Inhabited Out] (x : Nat → Out) (order : List Nat) (n : Nat)
    (h : ∀ j, j < n → j ∈ order) :
    order.foldl (fun o i => o.set i (x i)) (List.replicate n default) = (List.range n).map x := by
  apply List.ext_getElem?
  intro j
  by_cases hj : j < n
  · rw [foldl_set_getElem? x order _ j (by simpa using hj)]
    simp [h j hj, hj]
  · have h1 : (order.foldl (fun o i => o.set i (x i)) (List.replicate n default)).length ≤ j := by
      rw [foldl_set_length]; simpa using hj
    rw [List.getElem?_eq_none h1, List.getElem?_eq_none (by simpa using hj)]

theorem allLoop_spec {σ Out : Type} [Inhabited Out] (ctx : Ctx) (f : List (Fut σ Out))
    (r : Nat → Out × Option Error) (I : σ → Prop)
    (hf : ∀ i fOut, f[i]? = some fOut → ∀ s, I s → ∃ s1, Wait ctx fOut s = .ok (r i) s1 ∧ I s1)
    (order : List Nat) :
    ∀ (outs : List Out) (s : σ), I s → (∀ i ∈ order, i < f.length) →
      ∃ s1, I s1 ∧ allLoop ctx f order order.length outs s =
        .ok (match order.find? (fun i => (r i).2.isSome) with
             | some i => ([], (r i).2)
             | none => (order.foldl (fun o i => o.set i (r i).1) outs, none)) s1 := by
  induction order with
  | nil => intro outs s hs _; exact ⟨s, hs, rfl⟩
  | cons i rest ih =>
    intro outs s hs hlt
    have hi : i < f.length := hlt i (List.mem_cons_self _ _)
    have hget : f[i]? = some f[i] := List.getElem?_eq_getElem hi
    obtain ⟨s1, hw, hs1⟩ := hf i f[i] hget s hs
    cases he : (r i).2 with
    | none =>
      obtain ⟨s2, hs2, hl⟩ := ih (outs.set i (r i).1) s1 hs1
        (fun j hj => hlt j (List.mem_cons_of_mem _ hj))
      refine ⟨s2, hs2, ?_⟩
      simp only [List.length_cons, allLoop, hget, allWorker, Comp.bind, hw, he, hl, List.find?_cons,
        Option.isSome_none, List.foldl_cons]
    | some e =>
      refine ⟨s1, hs1, ?_⟩
      simp only [List.length_cons, allLoop, hget, allWorker, Comp.bind, hw, he, List.find?_cons,
        Option.isSome_some]

/-- `All` on inputs that keep the contract of `Fut`, the input `i` ending with the
pair `r i` on every world that satisfies `I`; `order`, a permutation of the indices,
is the completion order. With no failure `All` settles with the values in input
order; otherwise with the error of the first failure in completion order. -/
theorem All_of_outcomes {σ Out : Type} [Inhabited Out] (ctx : Ctx) (f : List (Fut σ Out))
    (r : Nat → Out × Option Error) (I : σ → Prop)
    (hf : ∀ i fOut, f[i]? = some fOut → ∀ s, I s → ∃ s1, Wait ctx fOut s = .ok (r i) s1 ∧ I s1)
    (order : List Nat) (hperm : order.Perm (List.range f.length)) (s : σ) (hs : I s)
    (hctx : ctx.err = none) :
    ∃ s1, I s1 ∧ Wait ctx (All order f) (s, NewState.init) =
      .ok (settle (allResult r order f.length)) (s1, NewState.settled (allResult r order f.length)) := by
  have hlen : order.length = f.length := by rw [hperm.length_eq, List.length_range]
  have hmem : ∀ i, i ∈ order ↔ i < f.length := fun i => by rw [hperm.mem_iff, List.mem_range]
  obtain ⟨s1, hs1, hl⟩ := allLoop_spec ctx f r I hf order (List.replicate f.length default) s hs
    (fun i hi => (hmem i).1 hi)
  refine ⟨s1, hs1, ?_⟩
  unfold All
  apply Wait_New_ok _ ctx s s1 _ hctx
  rw [hlen] at hl
  rw [hl]
  unfold allResult
  rw [foldl_set_all (fun i => (r i).1) order f.length (fun j hj => (hmem j).2 hj)]

/-- `All` on three settled futures that keep the contract, completing in the order
2, 0, 1: the values come back in input order; with a failure at input 1 and one at
input 2, the failure that completed first is returned. -/
theorem All_of_outcomes_example :
    (Wait Ctx.background (All [2, 0, 1] [ready (0 : Nat) none, ready 1 none, ready 2 none])
      ((), NewState.init)).value? = some ([0, 1, 2], none) ∧
    (Wait Ctx.background (All [2, 0, 1] [ready (0 : Nat) none,
      ready 1 (some (Val.errorString "one")), ready 2 (some (Val.errorString "two"))])
      ((), NewState.init)).value? = some ([], some (Val.errorString "two")) :=
  ⟨rfl, rfl⟩

/-- A computation that ends with `panic(nil)`: `recover()` returns nil (for a module
whose `go` directive is below 1.21), the deferred block does nothing, and the future
settles with the zero value and a nil error. -/
theorem New_panic_nil_payload :
    published (runNew boomingNil [.invoke handlerCtx, .enter 0, .work, .selectLocal]
      ((), NewState.init)) = some ("", none) :=
  rfl

end GoFut
